import Mathlib

/-! # camcap: reconnect-and-detect loop

A shallow embedding of `src/main.cpp`: the per-frame loop `process` and the
reconnect loop of `main`.  The camera is an input script: `main` consumes a
list of open attempts, and each opened session delivers a list of reads.
Where a script ends before the program does, the run is reported as still
going (`Outcome.running`, `Run.exit = none`).

The imaging calls are embedded with their 8-bit single-channel meaning:
`addWeighted` is `saturate_cast<uchar>(a*alpha + b*beta + gamma)` with
rounding to nearest, ties to even; `absdiff` is `|a - b|`; `threshold` with
`THRESH_BINARY` is `maxval` above `thresh` and `0` otherwise.  The blend is
exact in `ℚ` (halves of 8-bit values are exact in `float` as well).  The score
is kept as the exact quotient of the pixel sum by the pixel count: the code
holds its rounding to a `double`, and the loop uses it only to compare it with
`0.1`.  Nothing is stated here about the rounded value itself.
-/

namespace Camcap

/-! ## Constants -/

/-- The constant `constexpr int MAX_NUMBER_OF_RETRIES = 10;`. -/
def MAX_NUMBER_OF_RETRIES : Int := 10

/-- The constant `constexpr int MINIMAL_WAIT_TIME = 2; // seconds`. -/
def MINIMAL_WAIT_TIME : Int := 2

/-! ## Images -/

/-- One 8-bit pixel (`uchar`). -/
abbrev Pixel := Fin 256

/-- A greyscale raster, row-major.  The empty list is the empty `cv::Mat`. -/
abbrev Image := List Pixel

/-- The rounding `cvRound`: nearest integer, ties to the even neighbour. -/
def cvRound (x : ℚ) : Int :=
  let f := Rat.floor x
  let r := x - f
  if r < 1 / 2 then f
  else if 1 / 2 < r then f + 1
  else if f % 2 = 0 then f else f + 1

/-- The cast `saturate_cast<uchar>` of a real value: round, then clamp to `0..255`. -/
def saturate (x : ℚ) : Pixel :=
  ⟨(min (max (cvRound x) 0) 255).toNat, by omega⟩

/-- One pixel of `cv::addWeighted(src1, alpha, src2, beta, gamma, dst)`. -/
def addWeightedPx (alpha beta gamma : ℚ) (a b : Pixel) : Pixel :=
  saturate ((a.val : ℚ) * alpha + (b.val : ℚ) * beta + gamma)

/-- The call `cv::addWeighted`; `none` is the exception raised on a size mismatch. -/
def addWeighted (src1 : Image) (alpha : ℚ) (src2 : Image) (beta gamma : ℚ) :
    Option Image :=
  if src1.length = src2.length then
    some (List.zipWith (addWeightedPx alpha beta gamma) src1 src2)
  else none

/-- One pixel of `cv::absdiff`. -/
def absdiffPx (a b : Pixel) : Pixel :=
  ⟨(a.val : Int) - (b.val : Int) |>.natAbs, by omega⟩

/-- The call `cv::absdiff`; `none` is the exception raised on a size mismatch. -/
def absdiff (src1 src2 : Image) : Option Image :=
  if src1.length = src2.length then some (List.zipWith absdiffPx src1 src2)
  else none

/-- One pixel of `cv::threshold(.., thresh, maxval, THRESH_BINARY)`. -/
def thresholdPx (thresh : Nat) (maxval : Pixel) (p : Pixel) : Pixel :=
  if thresh < p.val then maxval else 0

/-- The call `cv::threshold(src, dst, thresh, maxval, cv::THRESH_BINARY)`. -/
def threshold (src : Image) (thresh : Nat) (maxval : Pixel) : Image :=
  src.map (thresholdPx thresh maxval)

/-- The exact mean behind `cv::mean(m)[0]`: the sum of the pixels over their
number.  The `double` the code stores in `diffScore` is a rounding of this
value; the embedding keeps the exact quotient and only compares it with the
threshold. -/
def mean (m : Image) : ℚ :=
  ((m.map (fun p => p.val)).sum : ℚ) / (m.length : ℚ)

/-! ## The frame processor -/

/-- The two `int`s that `main` shares with `process` by reference. -/
structure RetryState where
  numRetriesLeft : Int
  waitTime : Int
deriving DecidableEq, Repr

/-- What one pass through the reads at the top of the loop meets.  A frame is
carried as its greyscale conversion (`cvtColor(.., COLOR_RGB2GRAY)` keeps the
raster size, so an empty frame is the frame without pixels) together with the
answer `cv::waitKey(30) >= 0` would give at the end of that iteration. -/
inductive Read where
  | grabFailed
  | retrieveFailed
  | frame (grey : Image) (key : Bool)
deriving DecidableEq, Repr

/-- The variables that live across iterations of the `for (;;)` of `process`. -/
structure Loop where
  retry : RetryState
  baseline : Image
  countDown : Int
deriving DecidableEq, Repr

/-- What is observed of one iteration that read a frame and ran to its end. -/
structure Iter where
  /-- The Retry State right after lines 52-53. -/
  retry : RetryState
  /-- The baseline at the end of the iteration. -/
  baseline : Image
  /-- The value of `diffScore`; `none` on the iteration that sets the baseline. -/
  score : Option ℚ
  /-- Whether `cv::imwrite` was called. -/
  written : Bool
  /-- The value of `countDown` at the end of the iteration. -/
  countDown : Int
deriving DecidableEq, Repr

/-- How a call of `process` ends. -/
inductive Outcome where
  | returned (b : Bool)
  | threw
  | running
deriving DecidableEq, Repr

/-- How one iteration of the loop body ends. -/
inductive Step where
  | next (s : Loop) (it : Iter)
  | exit (s : Loop) (it : Iter)
  | fail (s : Loop)
  | raise (s : Loop)
deriving DecidableEq, Repr

/-- The loop variables recorded in a log entry. -/
def Iter.loop (it : Iter) : Loop := ⟨it.retry, it.baseline, it.countDown⟩

/-- The detection policy (lines 86-97): what the iteration records, given the
countdown it starts with and its score. -/
def detect (retry : RetryState) (baseline : Image) (countDown : Int) (diffScore : ℚ) : Iter :=
  let saveFrames := decide (diffScore > 1 / 10)
  let countDown := if saveFrames then 10 else countDown
  if saveFrames || decide (countDown > 0) then
    ⟨retry, baseline, some diffScore, true, countDown - 1⟩
  else ⟨retry, baseline, some diffScore, false, countDown⟩

/-- The body of the `for (;;)` of `process` (lines 36-106). -/
def body (s : Loop) : Read → Step
  | .grabFailed => .fail s
  | .retrieveFailed => .fail s
  | .frame greyFrame key =>
    if greyFrame.isEmpty then .fail s
    else
      let retry : RetryState := ⟨MAX_NUMBER_OF_RETRIES, MINIMAL_WAIT_TIME⟩
      let baselineAlpha : ℚ := 1 / 2
      if s.baseline.isEmpty then
        .next ⟨retry, greyFrame, s.countDown⟩ ⟨retry, greyFrame, none, false, s.countDown⟩
      else
        match addWeighted s.baseline baselineAlpha greyFrame (1 - baselineAlpha) 0 with
        | none => .raise ⟨retry, s.baseline, s.countDown⟩
        | some baseline =>
          match absdiff greyFrame baseline with
          | none => .raise ⟨retry, baseline, s.countDown⟩
          | some diff =>
            let diffScore := mean (threshold diff 30 255)
            let it := detect retry baseline s.countDown diffScore
            if key then .exit it.loop it else .next it.loop it

/-- The loop variables an iteration leaves behind. -/
def Step.loop : Step → Loop
  | .next s _ => s
  | .exit s _ => s
  | .fail s => s
  | .raise s => s

/-- The three checks at the top of the loop (lines 36-49): the read fails. -/
def Read.failed : Read → Bool
  | .grabFailed => true
  | .retrieveFailed => true
  | .frame capturedFrame _ => capturedFrame.isEmpty

/-- The result of a call of `process`. -/
structure Session where
  /-- One entry for each iteration that ran to its end, in order. -/
  log : List Iter
  /-- The loop variables when the call ended. -/
  last : Loop
  outcome : Outcome
deriving DecidableEq, Repr

/-- Put an iteration in front of a session's log. -/
def Session.push (it : Iter) (r : Session) : Session :=
  { r with log := it :: r.log }

/-- The `for (;;)` of `process`, from the loop variables `s`. -/
def processLoop (s : Loop) : List Read → Session
  | [] => ⟨[], s, .running⟩
  | r :: rest =>
    match body s r with
    | .fail s1 => ⟨[], s1, .returned false⟩
    | .raise s1 => ⟨[], s1, .threw⟩
    | .exit s1 it => ⟨[it], s1, .returned true⟩
    | .next s1 it => (processLoop s1 rest).push it

/-- The function `bool process(cv::VideoCapture &capture, int &numRetriesLeft, int &waitTime)`:
the baseline starts empty and `countDown` at `0`. -/
def process (capture : List Read) (retry : RetryState) : Session :=
  processLoop ⟨retry, [], 0⟩ capture

/-! ## The connection manager -/

/-- One construction of `cv::VideoCapture capture(url, cv::CAP_FFMPEG)`. -/
inductive Attempt where
  | refused
  | opened (capture : List Read)
deriving DecidableEq, Repr

/-- What a run of `main` does, in order. -/
inductive Event where
  | openAttempt (st : RetryState) (isOpened : Bool)
  | session (r : Session)
  | sleep (secs : Int)
  | loopTest (st : RetryState)
deriving DecidableEq, Repr

/-- A run of `main`: its events and its exit status (`none`: still running
when the script ended). -/
structure Run where
  trace : List Event
  exit : Option Int
deriving DecidableEq, Repr

/-- Put events in front of a run. -/
def Run.after (evs : List Event) (r : Run) : Run :=
  { r with trace := evs ++ r.trace }

/-- The `do { .. } while (--numRetriesLeft > 0);` of `main` (lines 123-153). -/
def mainLoop (st : RetryState) : List Attempt → Run
  | [] => ⟨[], none⟩
  | .refused :: rest =>
    let st1 : RetryState := ⟨st.numRetriesLeft - 1, st.waitTime * 2⟩
    if st1.numRetriesLeft > 0 then
      (mainLoop st1 rest).after [.openAttempt st false, .sleep st.waitTime, .loopTest st1]
    else ⟨[.openAttempt st false, .sleep st.waitTime, .loopTest st1], some 0⟩
  | .opened capture :: rest =>
    let r := process capture st
    match r.outcome with
    | .running => ⟨[.openAttempt st true, .session r], none⟩
    | .returned true => ⟨[.openAttempt st true, .session r], some 0⟩
    | _ =>
      let st1 : RetryState := ⟨r.last.retry.numRetriesLeft - 1, r.last.retry.waitTime * 2⟩
      if st1.numRetriesLeft > 0 then
        (mainLoop st1 rest).after
          [.openAttempt st true, .session r, .sleep r.last.retry.waitTime, .loopTest st1]
      else
        ⟨[.openAttempt st true, .session r, .sleep r.last.retry.waitTime, .loopTest st1], some 0⟩

/-- The function `int main(int argc, char **argv)`, run against a script of open attempts. -/
def main (argc : Int) (script : List Attempt) : Run :=
  if argc < 2 then ⟨[], some 1⟩
  else mainLoop ⟨MAX_NUMBER_OF_RETRIES, MINIMAL_WAIT_TIME⟩ script

/-! ## Reading the traces -/

/-- The loop variables at the start of iteration `i` of a session that
started from `s` and logged `log`. -/
def before (s : Loop) (log : List Iter) : Nat → Option Loop
  | 0 => some s
  | j + 1 => (log[j]?).map Iter.loop

/-- The detection policy of lines 86-97, from the countdown `prev` the
iteration starts with and the score `x` to what the iteration records. -/
def Policy (prev : Int) (x : ℚ) (it : Iter) : Prop :=
  if x > 1 / 10 then it.written = true ∧ it.countDown = 9
  else if prev > 0 then it.written = true ∧ it.countDown = prev - 1
  else it.written = false ∧ it.countDown = prev

/-- The Retry State with which each open attempt must start: between 1 and 10
retries left, and a wait of `2 ^ (11 - numRetriesLeft)` seconds. -/
def RetryState.Inv (st : RetryState) : Prop :=
  1 ≤ st.numRetriesLeft ∧ st.numRetriesLeft ≤ 10 ∧
    st.waitTime = 2 ^ (11 - st.numRetriesLeft).toNat

/-- What holds of every event of a run of `main`. -/
def Event.Bounded : Event → Prop
  | .openAttempt st _ => st.Inv
  | .session r =>
    (∀ it ∈ r.log, it.retry.waitTime = 2) ∧
      2 ≤ r.last.retry.waitTime ∧ r.last.retry.waitTime ≤ 1024
  | .sleep secs => 2 ≤ secs ∧ secs ≤ 1024
  | .loopTest st => 0 ≤ st.numRetriesLeft ∧ st.numRetriesLeft ≤ 9 ∧
      4 ≤ st.waitTime ∧ st.waitTime ≤ 2048 ∧ st.waitTime < 2 ^ 31

/-- The events of the `i`-th of ten failed open attempts in a row, counted
from `0`. -/
def refusedRound (i : Nat) : List Event :=
  [.openAttempt ⟨10 - i, 2 ^ (i + 1)⟩ false, .sleep (2 ^ (i + 1)),
    .loopTest ⟨9 - i, 2 ^ (i + 2)⟩]

/-- Whether an event is an open attempt. -/
def Event.isOpenAttempt : Event → Bool
  | .openAttempt _ _ => true
  | _ => false

/-- The waits of a run, in order. -/
def sleeps : List Event → List Int
  | [] => []
  | .sleep secs :: rest => secs :: sleeps rest
  | _ :: rest => sleeps rest

/-! ## Example inputs -/

/-- A one-pixel session: a dark first frame, a bright second frame, then
eleven frames that match the baseline the second frame leaves. -/
def quietAfterMotion : List Read :=
  [.frame [0] false, .frame [200] false] ++ List.replicate 11 (.frame [100] false)

/-- A 51-pixel raster with first pixel `p` and all others `0`. -/
def spot (p : Pixel) : Image := p :: List.replicate 50 0

/-- A 51-pixel session whose second frame scores `5`, followed by nine frames
that score `0`. -/
def fiveThenQuiet : List Read :=
  [.frame (spot 0) false, .frame (spot 200) false] ++
    List.replicate 9 (.frame (spot 100) false)

/-- A two-pixel session whose second frame averages to the ties `11.5` and
`3.5` against the first. -/
def tieFrames : List Read := [.frame [10, 3] false, .frame [13, 4] false]

/-- A camera that refuses the first open, then opens and fails the first grab. -/
def opensThenFails : List Attempt := [.refused, .opened [.grabFailed]]

/-! ## The loop body -/

theorem body_failed (s : Loop) (r : Read) (h : r.failed = true) : body s r = .fail s := by
  cases r with
  | grabFailed => rfl
  | retrieveFailed => rfl
  | frame g key => simp only [Read.failed] at h; simp [body, h]

theorem absdiff_eq_some (g b : Image) (h : g.length = b.length) :
    absdiff g b = some (List.zipWith absdiffPx g b) := by
  simp [absdiff, h]

theorem addWeighted_length {a g b : Image} {x y z : ℚ}
    (h : addWeighted a x g y z = some b) : a.length = g.length ∧ b.length = g.length := by
  unfold addWeighted at h
  split at h
  · rename_i hl
    simp only [Option.some.injEq] at h
    subst h
    simp [hl]
  · simp at h

theorem detect_fields (retry : RetryState) (b : Image) (c : Int) (x : ℚ) :
    (detect retry b c x).retry = retry ∧ (detect retry b c x).baseline = b ∧
      (detect retry b c x).score = some x ∧ Policy c x (detect retry b c x) := by
  unfold detect Policy
  by_cases hx : x > 1 / 10
  · simp only [hx, decide_True, Bool.true_or, if_true]
    norm_num
  · by_cases hc : c > 0
    · simp only [hx, hc, decide_False, decide_True, Bool.false_or, if_false, if_true,
        Bool.false_eq_true]
      simp
    · simp only [hx, hc, decide_False, Bool.false_or, if_false, Bool.false_eq_true]
      simp

theorem body_first (s : Loop) (g : Image) (key : Bool) (hg : g ≠ []) (hb : s.baseline = []) :
    body s (.frame g key) =
      .next ⟨⟨MAX_NUMBER_OF_RETRIES, MINIMAL_WAIT_TIME⟩, g, s.countDown⟩
        ⟨⟨MAX_NUMBER_OF_RETRIES, MINIMAL_WAIT_TIME⟩, g, none, false, s.countDown⟩ := by
  have hg2 : g.isEmpty = false := by cases g <;> simp_all
  simp only [body, hg2, hb, List.isEmpty_nil, if_true, Bool.false_eq_true, if_false]

theorem body_raise (s : Loop) (g : Image) (key : Bool) (hg : g ≠ []) (hb : s.baseline ≠ [])
    (hl : s.baseline.length ≠ g.length) :
    body s (.frame g key) =
      .raise ⟨⟨MAX_NUMBER_OF_RETRIES, MINIMAL_WAIT_TIME⟩, s.baseline, s.countDown⟩ := by
  have hg2 : g.isEmpty = false := by cases g <;> simp_all
  have hb2 : s.baseline.isEmpty = false := by cases hbb : s.baseline <;> simp_all
  simp only [body, hg2, hb2, addWeighted, hl, Bool.false_eq_true, if_false]

theorem body_blend (s : Loop) (g : Image) (key : Bool) (hg : g ≠ []) (hb : s.baseline ≠ [])
    (hl : s.baseline.length = g.length) :
    body s (.frame g key) =
      (if key = true then
        Step.exit
          (detect ⟨MAX_NUMBER_OF_RETRIES, MINIMAL_WAIT_TIME⟩
            (List.zipWith (addWeightedPx (1 / 2) (1 / 2) 0) s.baseline g) s.countDown
            (mean (threshold (List.zipWith absdiffPx g
              (List.zipWith (addWeightedPx (1 / 2) (1 / 2) 0) s.baseline g)) 30 255))).loop
          (detect ⟨MAX_NUMBER_OF_RETRIES, MINIMAL_WAIT_TIME⟩
            (List.zipWith (addWeightedPx (1 / 2) (1 / 2) 0) s.baseline g) s.countDown
            (mean (threshold (List.zipWith absdiffPx g
              (List.zipWith (addWeightedPx (1 / 2) (1 / 2) 0) s.baseline g)) 30 255)))
      else
        Step.next
          (detect ⟨MAX_NUMBER_OF_RETRIES, MINIMAL_WAIT_TIME⟩
            (List.zipWith (addWeightedPx (1 / 2) (1 / 2) 0) s.baseline g) s.countDown
            (mean (threshold (List.zipWith absdiffPx g
              (List.zipWith (addWeightedPx (1 / 2) (1 / 2) 0) s.baseline g)) 30 255))).loop
          (detect ⟨MAX_NUMBER_OF_RETRIES, MINIMAL_WAIT_TIME⟩
            (List.zipWith (addWeightedPx (1 / 2) (1 / 2) 0) s.baseline g) s.countDown
            (mean (threshold (List.zipWith absdiffPx g
              (List.zipWith (addWeightedPx (1 / 2) (1 / 2) 0) s.baseline g)) 30 255)))) := by
  have hg2 : g.isEmpty = false := by cases g <;> simp_all
  have hb2 : s.baseline.isEmpty = false := by cases hbb : s.baseline <;> simp_all
  have hhalf : (1 : ℚ) - 1 / 2 = 1 / 2 := by norm_num
  have hl2 : g.length = (List.zipWith (addWeightedPx (1 / 2) (1 / 2) 0) s.baseline g).length := by
    simp [hl]
  simp only [body, hg2, hb2, hhalf, addWeighted, hl, absdiff, hl2, Bool.false_eq_true, if_false,
    if_true]

theorem body_frame_retry (s : Loop) (g : Image) (key : Bool) (hg : g ≠ []) :
    (body s (.frame g key)).loop.retry = ⟨MAX_NUMBER_OF_RETRIES, MINIMAL_WAIT_TIME⟩ := by
  by_cases hb : s.baseline = []
  · rw [body_first s g key hg hb]; rfl
  · by_cases hl : s.baseline.length = g.length
    · rw [body_blend s g key hg hb hl]
      cases key
      · simp only [Bool.false_eq_true, if_false, Step.loop, Iter.loop]
        exact (detect_fields _ _ _ _).1
      · simp only [if_true, Step.loop, Iter.loop]
        exact (detect_fields _ _ _ _).1
    · rw [body_raise s g key hg hb hl]; rfl

/-- What an iteration that ran to its end has read and recorded. -/
theorem body_spec (sp : Loop) (r : Read) (it : Iter) (s1 : Loop)
    (h : body sp r = .next s1 it ∨ body sp r = .exit s1 it) :
    s1 = it.loop ∧ ∃ g key, r = .frame g key ∧ g ≠ [] ∧
      it.retry = ⟨MAX_NUMBER_OF_RETRIES, MINIMAL_WAIT_TIME⟩ ∧
      (sp.baseline = [] → it.baseline = g ∧ it.score = none ∧ it.written = false ∧
        it.countDown = sp.countDown ∧ body sp r = .next s1 it) ∧
      (sp.baseline ≠ [] → sp.baseline.length = g.length ∧
        it.baseline = List.zipWith (addWeightedPx (1 / 2) (1 / 2) 0) sp.baseline g ∧
        it.score = some (mean (threshold (List.zipWith absdiffPx g it.baseline) 30 255)) ∧
        Policy sp.countDown (mean (threshold (List.zipWith absdiffPx g it.baseline) 30 255)) it ∧
        (body sp r = .exit s1 it ↔ key = true)) := by
  cases r with
  | grabFailed => simp [body] at h
  | retrieveFailed => simp [body] at h
  | frame g key =>
    by_cases hg : g = []
    · subst hg; simp [body] at h
    · by_cases hb : sp.baseline = []
      · rw [body_first sp g key hg hb] at h ⊢
        simp only [Step.next.injEq, reduceCtorEq, or_false] at h
        obtain ⟨h1, h2⟩ := h
        subst h1 h2
        exact ⟨rfl, g, key, rfl, hg, rfl, fun _ => ⟨rfl, rfl, rfl, rfl, rfl⟩,
          fun hne => absurd hb hne⟩
      · by_cases hl : sp.baseline.length = g.length
        · have hd := detect_fields ⟨MAX_NUMBER_OF_RETRIES, MINIMAL_WAIT_TIME⟩
            (List.zipWith (addWeightedPx (1 / 2) (1 / 2) 0) sp.baseline g) sp.countDown
            (mean (threshold (List.zipWith absdiffPx g
              (List.zipWith (addWeightedPx (1 / 2) (1 / 2) 0) sp.baseline g)) 30 255))
          rw [body_blend sp g key hg hb hl] at h ⊢
          cases key
          · simp only [Bool.false_eq_true, if_false, Step.next.injEq, reduceCtorEq,
              or_false] at h ⊢
            obtain ⟨h1, h2⟩ := h
            subst h2
            refine ⟨h1.symm, g, false, rfl, hg, hd.1, fun he => absurd he hb, fun _ => ?_⟩
            rw [hd.2.1]
            exact ⟨hl, rfl, hd.2.2.1, hd.2.2.2, by simp⟩
          · simp only [if_true, Step.exit.injEq, reduceCtorEq, false_or] at h ⊢
            obtain ⟨h1, h2⟩ := h
            subst h2
            refine ⟨h1.symm, g, true, rfl, hg, hd.1, fun he => absurd he hb, fun _ => ?_⟩
            rw [hd.2.1]
            exact ⟨hl, rfl, hd.2.2.1, hd.2.2.2, ⟨fun _ => rfl, fun _ => by rw [h1]; exact ⟨rfl, rfl⟩⟩⟩
        · rw [body_raise sp g key hg hb hl] at h
          simp at h

/-! ## The frame loop -/

theorem log_step (reads : List Read) : ∀ (s : Loop) (i : Nat) (it : Iter),
    (processLoop s reads).log[i]? = some it →
    ∃ sp r s1, before s (processLoop s reads).log i = some sp ∧ reads[i]? = some r ∧
      (body sp r = .next s1 it ∨ body sp r = .exit s1 it) := by
  induction reads with
  | nil => intro s i it h; simp [processLoop] at h
  | cons r rest ih =>
    intro s i it h
    cases hb : body s r with
    | fail s1 => simp [processLoop, hb] at h
    | raise s1 => simp [processLoop, hb] at h
    | exit s1 it0 =>
      simp only [processLoop, hb] at h ⊢
      cases i with
      | zero =>
        simp only [List.getElem?_cons_zero, Option.some.injEq] at h
        subst h
        exact ⟨s, r, s1, rfl, by simp, Or.inr hb⟩
      | succ j => simp at h
    | next s1 it0 =>
      simp only [processLoop, hb, Session.push] at h ⊢
      cases i with
      | zero =>
        simp only [List.getElem?_cons_zero, Option.some.injEq] at h
        subst h
        exact ⟨s, r, s1, rfl, by simp, Or.inl hb⟩
      | succ j =>
        simp only [List.getElem?_cons_succ] at h
        obtain ⟨sp, r2, s2, h1, h2, h3⟩ := ih s1 j it h
        refine ⟨sp, r2, s2, ?_, by simpa using h2, h3⟩
        cases j with
        | zero =>
          simp only [before, Option.some.injEq] at h1
          subst h1
          simp [before, ← (body_spec s r it0 s1 (Or.inl hb)).1]
        | succ k => simpa [before] using h1

/-- Each log entry belongs to the read of the same index, a non-empty frame,
and is what the loop body makes of it from the variables in force. -/
theorem log_entry (reads : List Read) (s : Loop) (i : Nat) (it : Iter)
    (h : (processLoop s reads).log[i]? = some it) :
    ∃ sp g key, before s (processLoop s reads).log i = some sp ∧
      reads[i]? = some (.frame g key) ∧ g ≠ [] ∧
      it.retry = ⟨MAX_NUMBER_OF_RETRIES, MINIMAL_WAIT_TIME⟩ ∧
      (sp.baseline = [] → it.baseline = g ∧ it.score = none ∧ it.written = false ∧
        it.countDown = sp.countDown) ∧
      (sp.baseline ≠ [] → sp.baseline.length = g.length ∧
        it.baseline = List.zipWith (addWeightedPx (1 / 2) (1 / 2) 0) sp.baseline g ∧
        it.score = some (mean (threshold (List.zipWith absdiffPx g it.baseline) 30 255)) ∧
        Policy sp.countDown (mean (threshold (List.zipWith absdiffPx g it.baseline) 30 255)) it) := by
  obtain ⟨sp, r, s1, h1, h2, h3⟩ := log_step reads s i it h
  obtain ⟨_, g, key, hr, hg, hre, hA, hB⟩ := body_spec sp r it s1 h3
  subst hr
  refine ⟨sp, g, key, h1, h2, hg, hre, ?_, ?_⟩
  · intro hb
    obtain ⟨a, b, c, d, _⟩ := hA hb
    exact ⟨a, b, c, d⟩
  · intro hb
    obtain ⟨a, b, c, d, _⟩ := hB hb
    exact ⟨a, b, c, d⟩

theorem log_baseline_ne (reads : List Read) (s : Loop) (i : Nat) (it : Iter)
    (h : (processLoop s reads).log[i]? = some it) : it.baseline ≠ [] := by
  obtain ⟨sp, g, key, _, _, hg, _, hA, hB⟩ := log_entry reads s i it h
  by_cases hb : sp.baseline = []
  · rw [(hA hb).1]; exact hg
  · obtain ⟨hl, hbl, _⟩ := hB hb
    intro h0
    have : it.baseline.length = g.length := by rw [hbl]; simp [hl]
    rw [h0] at this
    exact hg (List.length_eq_zero.mp this.symm)

/-- The loop variables before iteration `i + 1` are those of log entry `i`. -/
theorem log_next (reads : List Read) (s : Loop) (i : Nat) (a b : Iter)
    (ha : (processLoop s reads).log[i]? = some a)
    (hb : (processLoop s reads).log[i + 1]? = some b) :
    ∃ g key, reads[i + 1]? = some (.frame g key) ∧ g ≠ [] ∧ a.baseline.length = g.length ∧
      b.baseline = List.zipWith (addWeightedPx (1 / 2) (1 / 2) 0) a.baseline g ∧
      b.score = some (mean (threshold (List.zipWith absdiffPx g b.baseline) 30 255)) ∧
      Policy a.countDown (mean (threshold (List.zipWith absdiffPx g b.baseline) 30 255)) b := by
  obtain ⟨sp, g, key, h1, h2, hg, _, _, hB⟩ := log_entry reads s (i + 1) b hb
  simp only [before, ha, Option.map_some', Option.some.injEq] at h1
  subst h1
  have hne : a.loop.baseline ≠ [] := log_baseline_ne reads s i a ha
  obtain ⟨x1, x2, x3, x4⟩ := hB hne
  exact ⟨g, key, h2, hg, x1, x2, x3, x4⟩

theorem processLoop_retry (reads : List Read) : ∀ s : Loop,
    (processLoop s reads).last.retry = s.retry ∨
      (processLoop s reads).last.retry = ⟨MAX_NUMBER_OF_RETRIES, MINIMAL_WAIT_TIME⟩ := by
  induction reads with
  | nil => intro s; exact Or.inl rfl
  | cons r rest ih =>
    intro s
    have hstep : (body s r).loop.retry = s.retry ∨
        (body s r).loop.retry = ⟨MAX_NUMBER_OF_RETRIES, MINIMAL_WAIT_TIME⟩ := by
      by_cases hf : r.failed = true
      · rw [body_failed s r hf]; exact Or.inl rfl
      · cases r with
        | grabFailed => simp [Read.failed] at hf
        | retrieveFailed => simp [Read.failed] at hf
        | frame g key =>
          have hg : g ≠ [] := by intro h0; subst h0; simp [Read.failed] at hf
          exact Or.inr (body_frame_retry s g key hg)
    cases hb : body s r with
    | fail s1 => rw [hb] at hstep; simpa [processLoop, hb, Step.loop] using hstep
    | raise s1 => rw [hb] at hstep; simpa [processLoop, hb, Step.loop] using hstep
    | exit s1 it0 => rw [hb] at hstep; simpa [processLoop, hb, Step.loop] using hstep
    | next s1 it0 =>
      rw [hb] at hstep
      simp only [Step.loop] at hstep
      simp only [processLoop, hb, Session.push]
      rcases ih s1 with h | h
      · rw [h]; exact hstep
      · exact Or.inr h

theorem log_prev {α : Type} (l : List α) (i : Nat) (b : α) (h : l[i + 1]? = some b) :
    ∃ a, l[i]? = some a := by
  have hlt : i + 1 < l.length := by
    by_contra hge
    rw [List.getElem?_eq_none (by omega)] at h
    exact Option.noConfusion h
  exact ⟨l[i], List.getElem?_eq_getElem (by omega)⟩

/-- A log entry with a score above the threshold is written and leaves the
countdown at `9`. -/
theorem trigger_entry (reads : List Read) (s : Loop) (i : Nat) (it : Iter) (x : ℚ)
    (h : (processLoop s reads).log[i]? = some it) (hs : it.score = some x) (hx : x > 1 / 10) :
    it.written = true ∧ it.countDown = 9 := by
  obtain ⟨sp, g, key, _, _, _, _, hA, hB⟩ := log_entry reads s i it h
  by_cases hb : sp.baseline = []
  · have := (hA hb).2.1
    rw [this] at hs
    exact Option.noConfusion hs
  · obtain ⟨_, _, hsc, hpol⟩ := hB hb
    rw [hsc] at hs
    simp only [Option.some.injEq] at hs
    rw [hs] at hpol
    unfold Policy at hpol
    rw [if_pos hx] at hpol
    exact hpol

/-- After a trigger at entry `i`, whatever the later scores, the countdown
at entry `i + k` is at least `9 - k`. -/
theorem countdown_lower (reads : List Read) (s : Loop) (i : Nat) (trig : Iter) (x : ℚ)
    (h : (processLoop s reads).log[i]? = some trig) (hs : trig.score = some x)
    (hx : x > 1 / 10) :
    ∀ (k : Nat) (it : Iter), (processLoop s reads).log[i + k]? = some it →
      9 - (k : Int) ≤ it.countDown ∧ (k ≤ 9 → it.written = true) := by
  intro k
  induction k with
  | zero =>
    intro it hit
    simp only [Nat.add_zero] at hit
    rw [h] at hit
    simp only [Option.some.injEq] at hit
    subst hit
    obtain ⟨hw, hc⟩ := trigger_entry reads s i trig x h hs hx
    exact ⟨by rw [hc]; simp, fun _ => hw⟩
  | succ k ih =>
    intro it hit
    obtain ⟨a, ha⟩ := log_prev _ (i + k) it hit
    obtain ⟨hca, _⟩ := ih a ha
    obtain ⟨g, key, _, _, _, _, _, hpol⟩ := log_next reads s (i + k) a it ha hit
    unfold Policy at hpol
    push_cast
    split_ifs at hpol with h1 h2
    · exact ⟨by rw [hpol.2]; omega, fun _ => hpol.1⟩
    · exact ⟨by rw [hpol.2]; omega, fun _ => hpol.1⟩
    · exact ⟨by rw [hpol.2]; omega, fun hk => by omega⟩

/-- After a trigger at entry `i` followed by `m` entries that all score at
most `0.1`, entry `i + k` is written exactly when `k ≤ 9`, and leaves the
countdown at `9 - k`, or at `0` from the ninth on. -/
theorem countdown_quiet (reads : List Read) (s : Loop) (i m : Nat) (trig : Iter) (x : ℚ)
    (h : (processLoop s reads).log[i]? = some trig) (hs : trig.score = some x)
    (hx : x > 1 / 10)
    (hq : ∀ k, 1 ≤ k → k ≤ m → ∃ it y, (processLoop s reads).log[i + k]? = some it ∧
      it.score = some y ∧ y ≤ 1 / 10) :
    ∀ k, k ≤ m → ∃ it, (processLoop s reads).log[i + k]? = some it ∧
      it.countDown = max (9 - (k : Int)) 0 ∧ (it.written = true ↔ k ≤ 9) := by
  intro k
  induction k with
  | zero =>
    intro _
    obtain ⟨hw, hc⟩ := trigger_entry reads s i trig x h hs hx
    exact ⟨trig, h, by rw [hc]; simp, by simp [hw]⟩
  | succ k ih =>
    intro hk
    obtain ⟨a, ha, hca, _⟩ := ih (by omega)
    obtain ⟨it, y, hit, hy, hyle⟩ := hq (k + 1) (by omega) hk
    refine ⟨it, hit, ?_⟩
    obtain ⟨g, key, _, _, _, _, hsc, hpol⟩ := log_next reads s (i + k) a it ha hit
    rw [hsc] at hy
    simp only [Option.some.injEq] at hy
    rw [hy] at hpol
    unfold Policy at hpol
    rw [if_neg (not_lt.mpr hyle)] at hpol
    push_cast
    split_ifs at hpol with h2
    · rw [hpol.2, hca]
      rw [hca] at h2
      exact ⟨by omega, by simp [hpol.1]; omega⟩
    · rw [hpol.2, hca]
      rw [hca] at h2
      exact ⟨by omega, by simp [hpol.1]; omega⟩

/-! ## Pixel arithmetic -/

theorem cvRound_near (x : ℚ) : |((cvRound x : Int) : ℚ) - x| ≤ 1 / 2 := by
  have hfl : Rat.floor x = ⌊x⌋ := rfl
  have h1 : ((⌊x⌋ : Int) : ℚ) ≤ x := Int.floor_le x
  have h2 : x < ((⌊x⌋ : Int) : ℚ) + 1 := Int.lt_floor_add_one x
  unfold cvRound
  simp only [hfl]
  rw [abs_le]
  split_ifs with ha hb hc
  · constructor <;> linarith
  · push_cast; constructor <;> linarith
  · constructor <;> linarith
  · push_cast; constructor <;> linarith

theorem cvRound_range (x : ℚ) (h0 : 0 ≤ x) (h255 : x ≤ 255) :
    0 ≤ cvRound x ∧ cvRound x ≤ 255 := by
  have hfl : Rat.floor x = ⌊x⌋ := rfl
  have h1 : ((⌊x⌋ : Int) : ℚ) ≤ x := Int.floor_le x
  have hf0 : 0 ≤ ⌊x⌋ := Int.floor_nonneg.mpr h0
  have hf255 : ⌊x⌋ ≤ 255 := by
    have : ((⌊x⌋ : Int) : ℚ) ≤ 255 := le_trans h1 h255
    exact_mod_cast this
  have hup : ¬ (x - ((⌊x⌋ : Int) : ℚ) < 1 / 2) → ⌊x⌋ + 1 ≤ 255 := by
    intro hr
    have : ((⌊x⌋ : Int) : ℚ) < 255 := by linarith
    have : ⌊x⌋ < 255 := by exact_mod_cast this
    omega
  unfold cvRound
  simp only [hfl]
  split_ifs with ha hb hc
  · exact ⟨hf0, hf255⟩
  · exact ⟨by omega, hup ha⟩
  · exact ⟨hf0, hf255⟩
  · exact ⟨by omega, hup ha⟩

/-- The blended pixel is within one half of the exact average. -/
theorem addWeightedPx_near (a b : Pixel) :
    |((addWeightedPx (1 / 2) (1 / 2) 0 a b).val : ℚ) -
      (1 / 2 * (a.val : ℚ) + 1 / 2 * (b.val : ℚ))| ≤ 1 / 2 := by
  have ha : (a.val : ℚ) ≤ 255 := by
    have : a.val ≤ 255 := by omega
    exact_mod_cast this
  have hb : (b.val : ℚ) ≤ 255 := by
    have : b.val ≤ 255 := by omega
    exact_mod_cast this
  have ha0 : (0 : ℚ) ≤ (a.val : ℚ) := by positivity
  have hb0 : (0 : ℚ) ≤ (b.val : ℚ) := by positivity
  have hx : (a.val : ℚ) * (1 / 2) + (b.val : ℚ) * (1 / 2) + 0 =
      1 / 2 * (a.val : ℚ) + 1 / 2 * (b.val : ℚ) := by ring
  obtain ⟨hr0, hr255⟩ := cvRound_range (1 / 2 * (a.val : ℚ) + 1 / 2 * (b.val : ℚ))
    (by linarith) (by linarith)
  have hnear := cvRound_near (1 / 2 * (a.val : ℚ) + 1 / 2 * (b.val : ℚ))
  have hval : ((addWeightedPx (1 / 2) (1 / 2) 0 a b).val : ℚ) =
      ((cvRound (1 / 2 * (a.val : ℚ) + 1 / 2 * (b.val : ℚ)) : Int) : ℚ) := by
    unfold addWeightedPx saturate
    rw [hx]
    simp only
    rw [max_eq_left hr0, min_eq_left hr255]
    have : ((cvRound (1 / 2 * (a.val : ℚ) + 1 / 2 * (b.val : ℚ))).toNat : Int) =
        cvRound (1 / 2 * (a.val : ℚ) + 1 / 2 * (b.val : ℚ)) := Int.toNat_of_nonneg hr0
    exact_mod_cast congrArg (fun z : Int => (z : ℚ)) this
  rw [hval]
  exact hnear

/-! ## Sessions that keep going -/

theorem processLoop_append (pre more : List Read) : ∀ s : Loop,
    (processLoop s pre).outcome = .running →
    processLoop s (pre ++ more) =
      ⟨(processLoop s pre).log ++ (processLoop (processLoop s pre).last more).log,
        (processLoop (processLoop s pre).last more).last,
        (processLoop (processLoop s pre).last more).outcome⟩ := by
  induction pre with
  | nil => intro s _; rfl
  | cons r pre ih =>
    intro s h
    cases hb : body s r with
    | fail s1 => simp [processLoop, hb] at h
    | raise s1 => simp [processLoop, hb] at h
    | exit s1 it0 => simp [processLoop, hb] at h
    | next s1 it0 =>
      simp only [processLoop, hb, Session.push] at h
      have h2 := ih s1 h
      simp only [List.cons_append, processLoop, hb, Session.push, List.append_eq] at h2 ⊢
      rw [h2]

theorem running_log_length (reads : List Read) : ∀ s : Loop,
    (processLoop s reads).outcome = .running →
    (processLoop s reads).log.length = reads.length := by
  induction reads with
  | nil => intro s _; rfl
  | cons r rest ih =>
    intro s h
    cases hb : body s r with
    | fail s1 => simp [processLoop, hb] at h
    | raise s1 => simp [processLoop, hb] at h
    | exit s1 it0 => simp [processLoop, hb] at h
    | next s1 it0 =>
      simp only [processLoop, hb, Session.push] at h
      simp only [processLoop, hb, Session.push, List.length_cons, ih s1 h]

/-- Frames of one size with no key pressed are all processed. -/
theorem processLoop_progress (n : Nat) (hn : 0 < n) (reads : List Read) : ∀ s : Loop,
    (s.baseline = [] ∨ s.baseline.length = n) →
    (∀ r ∈ reads, ∃ g, r = .frame g false ∧ g.length = n) →
    (processLoop s reads).outcome = .running ∧
      (processLoop s reads).log.length = reads.length := by
  induction reads with
  | nil => intro s _ _; exact ⟨rfl, rfl⟩
  | cons r rest ih =>
    intro s hs hall
    obtain ⟨g, hr, hgl⟩ := hall r (List.mem_cons_self _ _)
    subst hr
    have hg : g ≠ [] := by intro h0; subst h0; simp at hgl; omega
    have hrest : ∀ r ∈ rest, ∃ g, r = .frame g false ∧ g.length = n :=
      fun r hr => hall r (List.mem_cons_of_mem _ hr)
    by_cases hb : s.baseline = []
    · have hbody := body_first s g false hg hb
      have := ih ⟨⟨MAX_NUMBER_OF_RETRIES, MINIMAL_WAIT_TIME⟩, g, s.countDown⟩ (Or.inr hgl) hrest
      simp only [processLoop, hbody, Session.push, List.length_cons]
      exact ⟨this.1, by rw [this.2]⟩
    · have hl : s.baseline.length = g.length := by
        rcases hs with h | h
        · exact absurd h hb
        · rw [h, hgl]
      have hbody := body_blend s g false hg hb hl
      simp only [Bool.false_eq_true, if_false] at hbody
      have hd := (detect_fields ⟨MAX_NUMBER_OF_RETRIES, MINIMAL_WAIT_TIME⟩
        (List.zipWith (addWeightedPx (1 / 2) (1 / 2) 0) s.baseline g) s.countDown
        (mean (threshold (List.zipWith absdiffPx g
          (List.zipWith (addWeightedPx (1 / 2) (1 / 2) 0) s.baseline g)) 30 255))).2.1
      generalize detect ⟨MAX_NUMBER_OF_RETRIES, MINIMAL_WAIT_TIME⟩
        (List.zipWith (addWeightedPx (1 / 2) (1 / 2) 0) s.baseline g) s.countDown
        (mean (threshold (List.zipWith absdiffPx g
          (List.zipWith (addWeightedPx (1 / 2) (1 / 2) 0) s.baseline g)) 30 255)) = d at hd hbody
      have hdl : d.loop.baseline = [] ∨ d.loop.baseline.length = n := by
        right
        simp only [Iter.loop]
        rw [hd]
        simp [hl, hgl]
      have := ih d.loop hdl hrest
      simp only [processLoop, hbody, Session.push, List.length_cons]
      exact ⟨this.1, by rw [this.2]⟩

/-! ## The reconnect loop -/

theorem inv_default : RetryState.Inv ⟨MAX_NUMBER_OF_RETRIES, MINIMAL_WAIT_TIME⟩ := by
  simp [RetryState.Inv, MAX_NUMBER_OF_RETRIES, MINIMAL_WAIT_TIME]

theorem inv_bounds (st : RetryState) (h : st.Inv) :
    2 ≤ st.waitTime ∧ st.waitTime ≤ 1024 ∧
      (0 < st.numRetriesLeft - 1 → RetryState.Inv ⟨st.numRetriesLeft - 1, st.waitTime * 2⟩) := by
  obtain ⟨n, w⟩ := st
  simp only [RetryState.Inv] at h ⊢
  obtain ⟨h1, h2, h3⟩ := h
  subst h3
  interval_cases n <;> simp

theorem mainLoop_bounded (script : List Attempt) : ∀ st : RetryState, st.Inv →
    ∀ e ∈ (mainLoop st script).trace, e.Bounded := by
  induction script with
  | nil => intro st _ e he; simp [mainLoop] at he
  | cons a rest ih =>
    intro st hst e he
    obtain ⟨hw2, hw1024, hnext⟩ := inv_bounds st hst
    have hloop : Event.Bounded (.loopTest ⟨st.numRetriesLeft - 1, st.waitTime * 2⟩) := by
      simp only [Event.Bounded]
      obtain ⟨h1, h2, _⟩ := hst
      refine ⟨by omega, by omega, by omega, by omega, by norm_num; omega⟩
    cases a with
    | refused =>
      simp only [mainLoop] at he
      split_ifs at he with hpos
      · simp only [Run.after, List.cons_append, List.nil_append, List.mem_cons] at he
        rcases he with he | he | he | he
        · subst he; exact hst
        · subst he; exact ⟨hw2, hw1024⟩
        · subst he; exact hloop
        · exact ih _ (hnext (by simpa using hpos)) e he
      · simp only [List.mem_cons, List.mem_singleton, List.not_mem_nil, or_false] at he
        rcases he with he | he | he
        · subst he; exact hst
        · subst he; exact ⟨hw2, hw1024⟩
        · subst he; exact hloop
    | opened capture =>
      have hlast : RetryState.Inv (process capture st).last.retry := by
        rcases processLoop_retry capture ⟨st, [], 0⟩ with h | h
        · unfold process; rw [h]; exact hst
        · unfold process; rw [h]; exact inv_default
      obtain ⟨hr2, hr1024, hrnext⟩ := inv_bounds _ hlast
      have hsess : Event.Bounded (.session (process capture st)) := by
        refine ⟨?_, hr2, hr1024⟩
        intro it hit
        obtain ⟨i, hi, hget⟩ := List.mem_iff_getElem.mp hit
        have hsome : (processLoop ⟨st, [], 0⟩ capture).log[i]? = some it := by
          rw [← hget]; exact List.getElem?_eq_getElem hi
        obtain ⟨_, _, _, _, _, _, hre, _⟩ := log_entry capture ⟨st, [], 0⟩ i it hsome
        rw [hre]; rfl
      have hloop2 : Event.Bounded (.loopTest ⟨(process capture st).last.retry.numRetriesLeft - 1,
          (process capture st).last.retry.waitTime * 2⟩) := by
        simp only [Event.Bounded]
        obtain ⟨h1, h2, _⟩ := hlast
        refine ⟨by omega, by omega, by omega, by omega, by norm_num; omega⟩
      simp only [mainLoop] at he
      split at he
      · simp only [List.mem_cons, List.mem_singleton, List.not_mem_nil, or_false] at he
        rcases he with he | he
        · subst he; exact hst
        · subst he; exact hsess
      · simp only [List.mem_cons, List.mem_singleton, List.not_mem_nil, or_false] at he
        rcases he with he | he
        · subst he; exact hst
        · subst he; exact hsess
      · split_ifs at he with hpos
        · simp only [Run.after, List.cons_append, List.nil_append, List.mem_cons] at he
          rcases he with he | he | he | he | he
          · subst he; exact hst
          · subst he; exact hsess
          · subst he; exact ⟨hr2, hr1024⟩
          · subst he; exact hloop2
          · exact ih _ (hrnext (by simpa using hpos)) e he
        · simp only [List.mem_cons, List.mem_singleton, List.not_mem_nil, or_false] at he
          rcases he with he | he | he | he
          · subst he; exact hst
          · subst he; exact hsess
          · subst he; exact ⟨hr2, hr1024⟩
          · subst he; exact hloop2

theorem log_retry (reads : List Read) (s : Loop) :
    ∀ it ∈ (processLoop s reads).log, it.retry = ⟨MAX_NUMBER_OF_RETRIES, MINIMAL_WAIT_TIME⟩ := by
  intro it hit
  obtain ⟨i, hi, hget⟩ := List.mem_iff_getElem.mp hit
  have hsome : (processLoop s reads).log[i]? = some it := by
    rw [← hget]; exact List.getElem?_eq_getElem hi
  obtain ⟨_, _, _, _, _, _, hre, _⟩ := log_entry reads s i it hsome
  exact hre

theorem processLoop_failed (s : Loop) (f : Read) (more : List Read) (hf : f.failed = true) :
    processLoop s (f :: more) = ⟨[], s, .returned false⟩ := by
  simp only [processLoop, body_failed s f hf]

theorem mainLoop_refused (st : RetryState) (rest : List Attempt) :
    mainLoop st (.refused :: rest) =
      if 0 < st.numRetriesLeft - 1 then
        (mainLoop ⟨st.numRetriesLeft - 1, st.waitTime * 2⟩ rest).after
          [.openAttempt st false, .sleep st.waitTime,
            .loopTest ⟨st.numRetriesLeft - 1, st.waitTime * 2⟩]
      else ⟨[.openAttempt st false, .sleep st.waitTime,
        .loopTest ⟨st.numRetriesLeft - 1, st.waitTime * 2⟩], some 0⟩ := by
  simp only [mainLoop, gt_iff_lt]

theorem mainLoop_running (st : RetryState) (capture : List Read) (rest : List Attempt)
    (h : (process capture st).outcome = .running) :
    mainLoop st (.opened capture :: rest) =
      ⟨[.openAttempt st true, .session (process capture st)], none⟩ := by
  simp only [mainLoop, h]

theorem mainLoop_user_exit (st : RetryState) (capture : List Read) (rest : List Attempt)
    (h : (process capture st).outcome = .returned true) :
    mainLoop st (.opened capture :: rest) =
      ⟨[.openAttempt st true, .session (process capture st)], some 0⟩ := by
  simp only [mainLoop, h]

theorem mainLoop_reconnect (st : RetryState) (capture : List Read) (rest : List Attempt)
    (h : (process capture st).outcome = .returned false ∨ (process capture st).outcome = .threw) :
    mainLoop st (.opened capture :: rest) =
      if 0 < (process capture st).last.retry.numRetriesLeft - 1 then
        (mainLoop ⟨(process capture st).last.retry.numRetriesLeft - 1,
            (process capture st).last.retry.waitTime * 2⟩ rest).after
          [.openAttempt st true, .session (process capture st),
            .sleep (process capture st).last.retry.waitTime,
            .loopTest ⟨(process capture st).last.retry.numRetriesLeft - 1,
              (process capture st).last.retry.waitTime * 2⟩]
      else ⟨[.openAttempt st true, .session (process capture st),
        .sleep (process capture st).last.retry.waitTime,
        .loopTest ⟨(process capture st).last.retry.numRetriesLeft - 1,
          (process capture st).last.retry.waitTime * 2⟩], some 0⟩ := by
  rcases h with h | h <;> simp only [mainLoop, h, gt_iff_lt]

theorem mainLoop_head (st : RetryState) (a : Attempt) (rest : List Attempt) :
    ∃ ok, (mainLoop st (a :: rest)).trace[0]? = some (.openAttempt st ok) := by
  cases a with
  | refused =>
    rw [mainLoop_refused]
    split_ifs <;> exact ⟨false, rfl⟩
  | opened capture =>
    cases hO : (process capture st).outcome with
    | running => rw [mainLoop_running st capture rest hO]; exact ⟨true, rfl⟩
    | threw =>
      rw [mainLoop_reconnect st capture rest (Or.inr hO)]
      split_ifs <;> exact ⟨true, rfl⟩
    | returned b =>
      cases b with
      | true => rw [mainLoop_user_exit st capture rest hO]; exact ⟨true, rfl⟩
      | false =>
        rw [mainLoop_reconnect st capture rest (Or.inl hO)]
        split_ifs <;> exact ⟨true, rfl⟩

/-- A run that ends has status `0` and ends either on a user exit or on the
loop test with no retries left. -/
theorem mainLoop_exit (script : List Attempt) : ∀ (st : RetryState) (c : Int),
    (mainLoop st script).exit = some c →
    c = 0 ∧ ((∃ r, (mainLoop st script).trace.getLast? = some (.session r) ∧
        r.outcome = .returned true) ∨
      (∃ st1 : RetryState, (mainLoop st script).trace.getLast? = some (.loopTest st1) ∧
        st1.numRetriesLeft ≤ 0)) := by
  induction script with
  | nil => intro st c h; simp [mainLoop] at h
  | cons a rest ih =>
    intro st c h
    have key : ∀ (evs : List Event) (st1 : RetryState),
        ((mainLoop st1 rest).after evs).exit = some c →
        c = 0 ∧ ((∃ r, ((mainLoop st1 rest).after evs).trace.getLast? = some (.session r) ∧
            r.outcome = .returned true) ∨
          (∃ st2 : RetryState, ((mainLoop st1 rest).after evs).trace.getLast? =
            some (.loopTest st2) ∧ st2.numRetriesLeft ≤ 0)) := by
      intro evs st1 h1
      have h2 : (mainLoop st1 rest).exit = some c := h1
      obtain ⟨hc, hlast⟩ := ih st1 c h2
      have hne : (mainLoop st1 rest).trace ≠ [] := by
        intro h0
        rw [h0] at hlast
        simp at hlast
      have hl : ((mainLoop st1 rest).after evs).trace.getLast? =
          (mainLoop st1 rest).trace.getLast? := by
        simp only [Run.after]
        rw [List.getLast?_append_of_ne_nil _ hne]
      rw [hl]
      exact ⟨hc, hlast⟩
    cases a with
    | refused =>
      rw [mainLoop_refused] at h ⊢
      split_ifs at h ⊢ with hpos
      · exact key _ _ h
      · simp only [Option.some.injEq] at h
        exact ⟨h.symm, Or.inr ⟨_, rfl, by simpa using hpos⟩⟩
    | opened capture =>
      have hcases : (process capture st).outcome = .running ∨
          (process capture st).outcome = .returned true ∨
          ((process capture st).outcome = .returned false ∨
            (process capture st).outcome = .threw) := by
        cases (process capture st).outcome with
        | running => simp
        | threw => simp
        | returned b => cases b <;> simp
      rcases hcases with hO | hO | hO
      · rw [mainLoop_running st capture rest hO] at h; simp at h
      · rw [mainLoop_user_exit st capture rest hO] at h ⊢
        simp only [Option.some.injEq] at h
        exact ⟨h.symm, Or.inl ⟨_, rfl, hO⟩⟩
      · rw [mainLoop_reconnect st capture rest hO] at h ⊢
        split_ifs at h ⊢ with hpos
        · exact key _ _ h
        · simp only [Option.some.injEq] at h
          exact ⟨h.symm, Or.inr ⟨_, rfl, by simpa using hpos⟩⟩

/-- A session that ends on a user exit is the last event of the run. -/
theorem mainLoop_stops_on_exit (script : List Attempt) : ∀ (st : RetryState) (i : Nat)
    (r : Session), (mainLoop st script).trace[i]? = some (.session r) →
    r.outcome = .returned true →
    (mainLoop st script).trace.length = i + 1 ∧ (mainLoop st script).exit = some 0 := by
  induction script with
  | nil => intro st i r h; simp [mainLoop] at h
  | cons a rest ih =>
    intro st i r h hr
    cases a with
    | refused =>
      rw [mainLoop_refused] at h ⊢
      split_ifs at h ⊢ with hpos
      · simp only [Run.after, List.cons_append, List.nil_append] at h ⊢
        match i, h with
        | 0, h => simp at h
        | 1, h => simp at h
        | 2, h => simp at h
        | j + 3, h =>
          simp only [List.getElem?_cons_succ] at h
          obtain ⟨h1, h2⟩ := ih _ j r h hr
          exact ⟨by simp only [List.length_cons, h1], h2⟩
      · match i, h with
        | 0, h => simp at h
        | 1, h => simp at h
        | 2, h => simp at h
        | j + 3, h => simp at h
    | opened capture =>
      have hcases : (process capture st).outcome = .running ∨
          (process capture st).outcome = .returned true ∨
          ((process capture st).outcome = .returned false ∨
            (process capture st).outcome = .threw) := by
        cases (process capture st).outcome with
        | running => simp
        | threw => simp
        | returned b => cases b <;> simp
      rcases hcases with hO | hO | hO
      · rw [mainLoop_running st capture rest hO] at h
        match i, h with
        | 0, h => simp at h
        | 1, h =>
          simp only [List.getElem?_cons_succ, List.getElem?_cons_zero, Option.some.injEq,
            Event.session.injEq] at h
          rw [← h, hO] at hr; simp at hr
        | j + 2, h => simp at h
      · rw [mainLoop_user_exit st capture rest hO] at h ⊢
        match i, h with
        | 0, h => simp at h
        | 1, h => exact ⟨rfl, rfl⟩
        | j + 2, h => simp at h
      · have hO2 : (process capture st).outcome ≠ .returned true := by
          rcases hO with hO | hO <;> rw [hO] <;> simp
        rw [mainLoop_reconnect st capture rest hO] at h ⊢
        split_ifs at h ⊢ with hpos
        · simp only [Run.after, List.cons_append, List.nil_append] at h ⊢
          match i, h with
          | 0, h => simp at h
          | 1, h =>
            simp only [List.getElem?_cons_succ, List.getElem?_cons_zero, Option.some.injEq,
              Event.session.injEq] at h
            rw [← h] at hr; exact absurd hr hO2
          | 2, h => simp at h
          | 3, h => simp at h
          | j + 4, h =>
            simp only [List.getElem?_cons_succ] at h
            obtain ⟨h1, h2⟩ := ih _ j r h hr
            exact ⟨by simp only [List.length_cons, h1], h2⟩
        · match i, h with
          | 0, h => simp at h
          | 1, h =>
            simp only [List.getElem?_cons_succ, List.getElem?_cons_zero, Option.some.injEq,
              Event.session.injEq] at h
            rw [← h] at hr; exact absurd hr hO2
          | 2, h => simp at h
          | 3, h => simp at h
          | j + 4, h => simp at h

/-- A loop test with no retries left is the last event of the run, which
ends with status `0`. -/
theorem mainLoop_stops_on_exhausted (script : List Attempt) : ∀ (st : RetryState) (i : Nat)
    (st1 : RetryState), (mainLoop st script).trace[i]? = some (.loopTest st1) →
    st1.numRetriesLeft ≤ 0 →
    (mainLoop st script).trace.length = i + 1 ∧ (mainLoop st script).exit = some 0 := by
  induction script with
  | nil => intro st i st1 h; simp [mainLoop] at h
  | cons a rest ih =>
    intro st i st1 h hle
    cases a with
    | refused =>
      rw [mainLoop_refused] at h ⊢
      split_ifs at h ⊢ with hpos
      · simp only [Run.after, List.cons_append, List.nil_append] at h ⊢
        match i, h with
        | 0, h => simp at h
        | 1, h => simp at h
        | 2, h =>
          simp only [List.getElem?_cons_succ, List.getElem?_cons_zero, Option.some.injEq,
            Event.loopTest.injEq] at h
          rw [← h] at hle
          simp only at hle
          omega
        | j + 3, h =>
          simp only [List.getElem?_cons_succ] at h
          obtain ⟨h1, h2⟩ := ih _ j st1 h hle
          exact ⟨by simp only [List.length_cons, h1], h2⟩
      · match i, h with
        | 0, h => simp at h
        | 1, h => simp at h
        | 2, h => exact ⟨rfl, rfl⟩
        | j + 3, h => simp at h
    | opened capture =>
      have hcases : (process capture st).outcome = .running ∨
          (process capture st).outcome = .returned true ∨
          ((process capture st).outcome = .returned false ∨
            (process capture st).outcome = .threw) := by
        cases (process capture st).outcome with
        | running => simp
        | threw => simp
        | returned b => cases b <;> simp
      rcases hcases with hO | hO | hO
      · rw [mainLoop_running st capture rest hO] at h
        match i, h with
        | 0, h => simp at h
        | 1, h => simp at h
        | j + 2, h => simp at h
      · rw [mainLoop_user_exit st capture rest hO] at h
        match i, h with
        | 0, h => simp at h
        | 1, h => simp at h
        | j + 2, h => simp at h
      · rw [mainLoop_reconnect st capture rest hO] at h ⊢
        split_ifs at h ⊢ with hpos
        · simp only [Run.after, List.cons_append, List.nil_append] at h ⊢
          match i, h with
          | 0, h => simp at h
          | 1, h => simp at h
          | 2, h => simp at h
          | 3, h =>
            simp only [List.getElem?_cons_succ, List.getElem?_cons_zero, Option.some.injEq,
              Event.loopTest.injEq] at h
            rw [← h] at hle
            simp only at hle
            omega
          | j + 4, h =>
            simp only [List.getElem?_cons_succ] at h
            obtain ⟨h1, h2⟩ := ih _ j st1 h hle
            exact ⟨by simp only [List.length_cons, h1], h2⟩
        · match i, h with
          | 0, h => simp at h
          | 1, h => simp at h
          | 2, h => simp at h
          | 3, h => exact ⟨rfl, rfl⟩
          | j + 4, h => simp at h

/-! ## The claims on the reconnect loop -/

/-- C1: with an argument and a source that refuses the first ten open
attempts, `main` makes exactly ten open attempts, sleeps once after each, the
wait after the `i`-th failure being `2 ^ i` seconds (2, 4, ..., 1024), and then
ends with no further attempt, whatever the camera would have done next. -/
theorem never_opens_ten_attempts (argc : Int) (hargc : 2 ≤ argc) (extra : List Attempt) :
    (main argc (List.replicate 10 Attempt.refused ++ extra)).trace =
        refusedRound 0 ++ refusedRound 1 ++ refusedRound 2 ++ refusedRound 3 ++
          refusedRound 4 ++ refusedRound 5 ++ refusedRound 6 ++ refusedRound 7 ++
          refusedRound 8 ++ refusedRound 9 ∧
      ((main argc (List.replicate 10 Attempt.refused ++ extra)).trace.filter
        Event.isOpenAttempt).length = 10 ∧
      sleeps (main argc (List.replicate 10 Attempt.refused ++ extra)).trace =
        (List.range 10).map (fun i => (2 : Int) ^ (i + 1)) ∧
      sleeps (main argc (List.replicate 10 Attempt.refused ++ extra)).trace =
        [2, 4, 8, 16, 32, 64, 128, 256, 512, 1024] ∧
      (main argc (List.replicate 10 Attempt.refused ++ extra)).exit = some 0 := by
  have hmain : main argc (List.replicate 10 Attempt.refused ++ extra) =
      ⟨refusedRound 0 ++ refusedRound 1 ++ refusedRound 2 ++ refusedRound 3 ++
          refusedRound 4 ++ refusedRound 5 ++ refusedRound 6 ++ refusedRound 7 ++
          refusedRound 8 ++ refusedRound 9, some 0⟩ := by
    unfold main
    rw [if_neg (by omega)]
    rfl
  rw [hmain]
  exact ⟨rfl, by decide, by decide, by decide, rfl⟩

theorem never_opens_ten_attempts_witness :
    (2 : Int) ≤ 2 ∧
      sleeps (main 2 (List.replicate 10 Attempt.refused ++ [Attempt.opened []])).trace =
        [2, 4, 8, 16, 32, 64, 128, 256, 512, 1024] ∧
      (main 2 (List.replicate 10 Attempt.refused ++ [Attempt.opened []])).exit = some 0 :=
  ⟨by decide, (never_opens_ten_attempts 2 (by decide) [Attempt.opened []]).2.2.2.1,
    (never_opens_ten_attempts 2 (by decide) [Attempt.opened []]).2.2.2.2⟩

/-- C2, as stated, fails: after one refused open the source opens and the
first grab fails; `process` ran with the Retry State `(9, 4)` left by the
refusal, not with the defaults `(10, 2)`, and the wait that follows is `4`
seconds, not `2`. -/
theorem reset_on_open_counterexample :
    (main 2 opensThenFails).trace =
        [.openAttempt ⟨10, 2⟩ false, .sleep 2, .loopTest ⟨9, 4⟩,
          .openAttempt ⟨9, 4⟩ true,
          .session ⟨[], ⟨⟨9, 4⟩, [], 0⟩, .returned false⟩,
          .sleep 4, .loopTest ⟨8, 8⟩] ∧
      (⟨9, 4⟩ : RetryState) ≠ ⟨MAX_NUMBER_OF_RETRIES, MINIMAL_WAIT_TIME⟩ ∧
      (4 : Int) ≠ MINIMAL_WAIT_TIME := by
  refine ⟨by decide!, by decide, by decide⟩

/-- C2, amended: a successful open leaves the Retry State as it is; `process`
is entered with the values held at the open.  When the first read of the
session fails, `process` returns `false` with those values untouched, and the
backoff goes on from them: `main` sleeps the `waitTime` held at the open and
the loop test sees it doubled and `numRetriesLeft` decremented.  When the first
read yields a frame, the Retry State is `(10, 2)` when `process` ends. -/
theorem open_keeps_retry_state (st : RetryState) (f : Read) (more : List Read)
    (rest : List Attempt) (hf : f.failed = true) :
    process (f :: more) st = ⟨[], ⟨st, [], 0⟩, .returned false⟩ ∧
      (mainLoop st (.opened (f :: more) :: rest)).trace.take 4 =
        [.openAttempt st true, .session ⟨[], ⟨st, [], 0⟩, .returned false⟩,
          .sleep st.waitTime, .loopTest ⟨st.numRetriesLeft - 1, st.waitTime * 2⟩] ∧
      (∀ (g : Image) (key : Bool), g ≠ [] →
        (process (.frame g key :: more) st).last.retry = ⟨10, 2⟩) := by
  have hp : process (f :: more) st = ⟨[], ⟨st, [], 0⟩, .returned false⟩ :=
    processLoop_failed ⟨st, [], 0⟩ f more hf
  refine ⟨hp, ?_, ?_⟩
  · rw [mainLoop_reconnect st (f :: more) rest (Or.inl (by rw [hp])), hp]
    split_ifs <;> rfl
  · intro g key hg
    have hstep := body_frame_retry ⟨st, [], 0⟩ g key hg
    unfold process
    cases hb : body ⟨st, [], 0⟩ (.frame g key) with
    | fail s1 => rw [hb] at hstep; simpa [processLoop, hb, Step.loop] using hstep
    | raise s1 => rw [hb] at hstep; simpa [processLoop, hb, Step.loop] using hstep
    | exit s1 it0 => rw [hb] at hstep; simpa [processLoop, hb, Step.loop] using hstep
    | next s1 it0 =>
      rw [hb] at hstep
      simp only [Step.loop] at hstep
      simp only [processLoop, hb, Session.push]
      rcases processLoop_retry more s1 with h | h
      · rw [h]; exact hstep
      · exact h

theorem open_keeps_retry_state_witness :
    Read.failed .grabFailed = true ∧
      (mainLoop ⟨9, 4⟩ [.opened [.grabFailed, .frame [1] false]]).trace.take 4 =
        [.openAttempt ⟨9, 4⟩ true, .session ⟨[], ⟨⟨9, 4⟩, [], 0⟩, .returned false⟩,
          .sleep 4, .loopTest ⟨8, 8⟩] :=
  ⟨rfl, (open_keeps_retry_state ⟨9, 4⟩ .grabFailed [.frame [1] false] [] rfl).2.1⟩

/-- C5: whatever the loop variables are (so for every `numRetriesLeft` and
`waitTime` on entry and at any point of a session), an iteration that reads a
non-empty frame leaves the Retry State at `(10, 2)`; from then on every logged
iteration records `(10, 2)` right after its read, and so does the state in
which the call ends. -/
theorem retry_reset_on_every_read (s : Loop) (g : Image) (key : Bool) (rest : List Read)
    (hg : g ≠ []) :
    MAX_NUMBER_OF_RETRIES = 10 ∧ MINIMAL_WAIT_TIME = 2 ∧
      (body s (.frame g key)).loop.retry = ⟨10, 2⟩ ∧
      (processLoop s (.frame g key :: rest)).last.retry = ⟨10, 2⟩ ∧
      (∀ it ∈ (processLoop s (.frame g key :: rest)).log, it.retry = ⟨10, 2⟩) ∧
      (∀ (reads : List Read) (st : RetryState), ∀ it ∈ (process reads st).log,
        it.retry = ⟨10, 2⟩) := by
  have hstep := body_frame_retry s g key hg
  refine ⟨rfl, rfl, hstep, ?_, log_retry _ s, fun reads st => log_retry reads _⟩
  cases hb : body s (.frame g key) with
  | fail s1 => rw [hb] at hstep; simpa [processLoop, hb, Step.loop] using hstep
  | raise s1 => rw [hb] at hstep; simpa [processLoop, hb, Step.loop] using hstep
  | exit s1 it0 => rw [hb] at hstep; simpa [processLoop, hb, Step.loop] using hstep
  | next s1 it0 =>
    rw [hb] at hstep
    simp only [Step.loop] at hstep
    simp only [processLoop, hb, Session.push]
    rcases processLoop_retry rest s1 with h | h
    · rw [h]; exact hstep
    · exact h

theorem retry_reset_on_every_read_witness :
    ([7] : Image) ≠ [] ∧
      (processLoop ⟨⟨1, 1024⟩, [], 0⟩ [.frame [7] false, .grabFailed]).last.retry = ⟨10, 2⟩ :=
  ⟨by decide,
    (retry_reset_on_every_read ⟨⟨1, 1024⟩, [], 0⟩ [7] false [.grabFailed] (by decide)).2.2.2.1⟩

/-- C6: when a read fails (grab, retrieve, or an empty frame) after reads
`pre` that kept the loop going, `process` returns `false` at once: its log is
the log of `pre` and what the camera would deliver afterwards is not looked
at.  `main` then sleeps the current `waitTime` once, doubles `waitTime`,
decrements `numRetriesLeft`, and the next event is an open attempt exactly
when the decremented `numRetriesLeft` is greater than `0`; otherwise the run
ends there. -/
theorem read_failure_reconnects (st : RetryState) (pre : List Read) (f : Read)
    (more : List Read) (a : Attempt) (rest : List Attempt)
    (hpre : (process pre st).outcome = .running) (hf : f.failed = true) :
    (process (pre ++ f :: more) st).outcome = .returned false ∧
      (process (pre ++ f :: more) st).log = (process pre st).log ∧
      (process (pre ++ f :: more) st).log.length = pre.length ∧
      (process (pre ++ f :: more) st).last = (process pre st).last ∧
      (mainLoop st (.opened (pre ++ f :: more) :: a :: rest)).trace.take 4 =
        [.openAttempt st true, .session (process (pre ++ f :: more) st),
          .sleep (process pre st).last.retry.waitTime,
          .loopTest ⟨(process pre st).last.retry.numRetriesLeft - 1,
            (process pre st).last.retry.waitTime * 2⟩] ∧
      ((∃ ok, (mainLoop st (.opened (pre ++ f :: more) :: a :: rest)).trace[4]? =
          some (.openAttempt ⟨(process pre st).last.retry.numRetriesLeft - 1,
            (process pre st).last.retry.waitTime * 2⟩ ok)) ↔
        0 < (process pre st).last.retry.numRetriesLeft - 1) ∧
      (¬ 0 < (process pre st).last.retry.numRetriesLeft - 1 →
        (mainLoop st (.opened (pre ++ f :: more) :: a :: rest)).trace.length = 4 ∧
        (mainLoop st (.opened (pre ++ f :: more) :: a :: rest)).exit = some 0) := by
  have hp : process (pre ++ f :: more) st =
      ⟨(process pre st).log, (process pre st).last, .returned false⟩ := by
    unfold process at hpre ⊢
    rw [processLoop_append pre (f :: more) _ hpre, processLoop_failed _ f more hf]
    simp
  have hlen : (process pre st).log.length = pre.length := running_log_length pre _ hpre
  have hO : (process (pre ++ f :: more) st).outcome = .returned false := by rw [hp]
  have hlast : (process (pre ++ f :: more) st).last = (process pre st).last := by rw [hp]
  refine ⟨hO, by rw [hp], by rw [hp]; exact hlen, hlast, ?_, ?_, ?_⟩
  · rw [mainLoop_reconnect st _ _ (Or.inl hO), hlast]
    split_ifs <;> rfl
  · rw [mainLoop_reconnect st _ _ (Or.inl hO), hlast]
    split_ifs with hpos
    · obtain ⟨ok, hok⟩ := mainLoop_head ⟨(process pre st).last.retry.numRetriesLeft - 1,
        (process pre st).last.retry.waitTime * 2⟩ a rest
      simp only [Run.after, List.cons_append, List.nil_append, List.getElem?_cons_succ]
      exact ⟨fun _ => hpos, fun _ => ⟨ok, hok⟩⟩
    · constructor
      · rintro ⟨ok, hok⟩
        simp at hok
      · intro h; exact absurd h hpos
  · intro hneg
    rw [mainLoop_reconnect st _ _ (Or.inl hO), hlast, if_neg hneg]
    exact ⟨rfl, rfl⟩

theorem read_failure_reconnects_witness :
    (process [.frame [0] false] ⟨3, 256⟩).outcome = .running ∧
      Read.failed .grabFailed = true ∧
      (process ([.frame [0] false] ++ .grabFailed :: [.frame [1] false]) ⟨3, 256⟩).outcome =
        .returned false ∧
      (mainLoop ⟨3, 256⟩ (.opened ([.frame [0] false] ++ .grabFailed :: [.frame [1] false]) ::
          .refused :: [])).trace.take 4 =
        [.openAttempt ⟨3, 256⟩ true,
          .session (process ([.frame [0] false] ++ .grabFailed :: [.frame [1] false]) ⟨3, 256⟩),
          .sleep (process [.frame [0] false] ⟨3, 256⟩).last.retry.waitTime,
          .loopTest ⟨(process [.frame [0] false] ⟨3, 256⟩).last.retry.numRetriesLeft - 1,
            (process [.frame [0] false] ⟨3, 256⟩).last.retry.waitTime * 2⟩] :=
  ⟨rfl, rfl,
    (read_failure_reconnects ⟨3, 256⟩ [.frame [0] false] .grabFailed [.frame [1] false]
      .refused [] rfl rfl).1,
    (read_failure_reconnects ⟨3, 256⟩ [.frame [0] false] .grabFailed [.frame [1] false]
      .refused [] rfl rfl).2.2.2.2.1⟩

/-- C9: `main` returns status `1` exactly when `argc < 2`, and then without
any event (no open attempt).  With an argument, every run that ends returns
status `0`, and it ends in one of two ways: on a session in which `process`
returned `true`, or on the loop test with no retries left.  Both endings end
the run with status `0`: a session in which `process` returned `true` is the
last event of the run (no sleep and no open attempt follows it), and so is a
loop test that finds no retries left.  Both happen: a first session in which
`process` returns `true` ends the run at once, and ten refused opens in a row
end it on the loop test with `numRetriesLeft = 0`. -/
theorem exit_status (argc : Int) (script : List Attempt) :
    ((main argc script).exit = some 1 ↔ argc < 2) ∧
      (argc < 2 → (main argc script).trace = []) ∧
      (2 ≤ argc → ∀ c, (main argc script).exit = some c →
        c = 0 ∧
        ((∃ r, (main argc script).trace.getLast? = some (.session r) ∧
            r.outcome = .returned true) ∨
          (∃ st : RetryState, (main argc script).trace.getLast? = some (.loopTest st) ∧
            st.numRetriesLeft ≤ 0))) ∧
      (∀ (i : Nat) (r : Session), (main argc script).trace[i]? = some (.session r) →
        r.outcome = .returned true →
        (main argc script).trace.length = i + 1 ∧ (main argc script).exit = some 0) ∧
      (∀ (i : Nat) (st : RetryState), (main argc script).trace[i]? = some (.loopTest st) →
        st.numRetriesLeft ≤ 0 →
        (main argc script).trace.length = i + 1 ∧ (main argc script).exit = some 0) ∧
      (2 ≤ argc → ∀ (capture : List Read) (rest : List Attempt),
        (process capture ⟨MAX_NUMBER_OF_RETRIES, MINIMAL_WAIT_TIME⟩).outcome = .returned true →
        main argc (.opened capture :: rest) =
          ⟨[.openAttempt ⟨MAX_NUMBER_OF_RETRIES, MINIMAL_WAIT_TIME⟩ true,
            .session (process capture ⟨MAX_NUMBER_OF_RETRIES, MINIMAL_WAIT_TIME⟩)], some 0⟩) ∧
      (2 ≤ argc → ∀ extra : List Attempt,
        (main argc (List.replicate 10 Attempt.refused ++ extra)).exit = some 0 ∧
        (main argc (List.replicate 10 Attempt.refused ++ extra)).trace.getLast? =
          some (.loopTest ⟨0, 2048⟩)) := by
  have hfwd1 : 2 ≤ argc → ∀ (capture : List Read) (rest : List Attempt),
      (process capture ⟨MAX_NUMBER_OF_RETRIES, MINIMAL_WAIT_TIME⟩).outcome = .returned true →
      main argc (.opened capture :: rest) =
        ⟨[.openAttempt ⟨MAX_NUMBER_OF_RETRIES, MINIMAL_WAIT_TIME⟩ true,
          .session (process capture ⟨MAX_NUMBER_OF_RETRIES, MINIMAL_WAIT_TIME⟩)], some 0⟩ := by
    intro h2 capture rest hO
    unfold main
    rw [if_neg (by omega)]
    exact mainLoop_user_exit _ capture rest hO
  have hfwd2 : 2 ≤ argc → ∀ extra : List Attempt,
      (main argc (List.replicate 10 Attempt.refused ++ extra)).exit = some 0 ∧
      (main argc (List.replicate 10 Attempt.refused ++ extra)).trace.getLast? =
        some (.loopTest ⟨0, 2048⟩) := by
    intro h2 extra
    unfold main
    rw [if_neg (by omega)]
    exact ⟨rfl, rfl⟩
  by_cases h : argc < 2
  · have hm : main argc script = ⟨[], some 1⟩ := by unfold main; rw [if_pos h]
    rw [hm]
    refine ⟨by simp [h], fun _ => rfl, fun h2 => by omega, ?_, ?_, hfwd1, hfwd2⟩
    · intro i r hi
      simp at hi
    · intro i st hi
      simp at hi
  · have hm : main argc script =
        mainLoop ⟨MAX_NUMBER_OF_RETRIES, MINIMAL_WAIT_TIME⟩ script := by
      unfold main; rw [if_neg h]
    rw [hm]
    refine ⟨?_, fun h2 => absurd h2 h, fun _ c hc => mainLoop_exit script _ c hc,
      fun i r hi hr => mainLoop_stops_on_exit script _ i r hi hr,
      fun i st hi hle => mainLoop_stops_on_exhausted script _ i st hi hle, hfwd1, hfwd2⟩
    constructor
    · intro h1
      have := (mainLoop_exit script _ 1 h1).1
      omega
    · intro h2; exact absurd h2 h

theorem exit_status_witness :
    ((main 2 [.opened [.frame [0] false, .frame [0] true], .refused]).trace[1]? =
        some (.session (process [.frame [0] false, .frame [0] true] ⟨10, 2⟩)) ∧
      (process [.frame [0] false, .frame [0] true] ⟨10, 2⟩).outcome = .returned true ∧
      (main 2 [.opened [.frame [0] false, .frame [0] true], .refused]).trace.length = 1 + 1 ∧
      (main 2 [.opened [.frame [0] false, .frame [0] true], .refused]).exit = some 0) ∧
    ((main 2 (List.replicate 10 Attempt.refused)).trace[29]? = some (.loopTest ⟨0, 2048⟩) ∧
      (⟨0, 2048⟩ : RetryState).numRetriesLeft ≤ 0 ∧
      (main 2 (List.replicate 10 Attempt.refused)).trace.length = 29 + 1 ∧
      (main 2 (List.replicate 10 Attempt.refused)).exit = some 0) :=
  ⟨⟨by decide!, by decide!,
      (exit_status 2 [.opened [.frame [0] false, .frame [0] true], .refused]).2.2.2.1 1
        (process [.frame [0] false, .frame [0] true] ⟨10, 2⟩) (by decide!) (by decide!)⟩,
    ⟨by decide!, by decide,
      (exit_status 2 (List.replicate 10 Attempt.refused)).2.2.2.2.1 29 ⟨0, 2048⟩
        (by decide!) (by decide)⟩⟩

/-- C10: in every run of `main`, for any script of refused opens, failed
reads and frames, each open attempt starts with `1 ≤ numRetriesLeft ≤ 10` and
`waitTime = 2 ^ (11 - numRetriesLeft)`; every sleep lasts between 2 and 1024
seconds; the values held during a session are 2 after a read and at most 1024
otherwise; and every doubled `waitTime` is at most 2048, below `2 ^ 31`. -/
theorem retry_state_bounded (argc : Int) (script : List Attempt) :
    (∀ (st : RetryState) (ok : Bool), Event.openAttempt st ok ∈ (main argc script).trace →
        1 ≤ st.numRetriesLeft ∧ st.numRetriesLeft ≤ 10 ∧
          st.waitTime = 2 ^ (11 - st.numRetriesLeft).toNat) ∧
      (∀ secs : Int, Event.sleep secs ∈ (main argc script).trace → 2 ≤ secs ∧ secs ≤ 1024) ∧
      (∀ r : Session, Event.session r ∈ (main argc script).trace →
        (∀ it ∈ r.log, it.retry.waitTime = 2) ∧ r.last.retry.waitTime ≤ 1024) ∧
      (∀ st : RetryState, Event.loopTest st ∈ (main argc script).trace →
        st.waitTime ≤ 2048 ∧ st.waitTime < 2 ^ 31) := by
  have hall : ∀ e ∈ (main argc script).trace, e.Bounded := by
    unfold main
    split_ifs
    · intro e he; simp at he
    · exact mainLoop_bounded script _ inv_default
  refine ⟨fun st ok h => hall _ h, fun secs h => hall _ h, fun r h => ?_, fun st h => ?_⟩
  · have := hall _ h
    exact ⟨this.1, this.2.2⟩
  · have := hall _ h
    exact ⟨this.2.2.2.1, this.2.2.2.2⟩

theorem retry_state_bounded_witness :
    Event.openAttempt ⟨9, 4⟩ true ∈ (main 2 opensThenFails).trace ∧
      ((1 : Int) ≤ 9 ∧ (9 : Int) ≤ 10 ∧ (4 : Int) = 2 ^ (11 - (9 : Int)).toNat) :=
  ⟨by decide!, (retry_state_bounded 2 opensThenFails).1 ⟨9, 4⟩ true (by decide!)⟩

/-! ## The claims on the frame loop -/

/-- C3, as stated, fails: in the one-pixel session the second frame scores
`255` and the eleven frames after it score `0`; the trigger and the nine
frames after it are written, the tenth frame after the trigger is not. -/
theorem ten_followers_counterexample :
    (process quietAfterMotion ⟨10, 2⟩).log.map (fun it => (it.score, it.written)) =
        [(none, false), (some 255, true),
          (some 0, true), (some 0, true), (some 0, true), (some 0, true), (some 0, true),
          (some 0, true), (some 0, true), (some 0, true), (some 0, true),
          (some 0, false), (some 0, false)] ∧
      ((process quietAfterMotion ⟨10, 2⟩).log[1 + 10]?).map Iter.written = some false := by
  refine ⟨by decide!, by decide!⟩

/-- C3, amended: when the frame of log entry `i` scores above `0.1` and the
`m` frames after it are read and all score at most `0.1`, the triggering frame
is written and, of the frames after it, exactly the first 9 are written: the
`k`-th is written if and only if `k ≤ 9`. -/
theorem trigger_then_exactly_nine (capture : List Read) (st : RetryState) (i m : Nat)
    (trig : Iter) (x : ℚ)
    (h : (process capture st).log[i]? = some trig) (hs : trig.score = some x)
    (hx : x > 1 / 10)
    (hq : ∀ k, 1 ≤ k → k ≤ m → ∃ it y, (process capture st).log[i + k]? = some it ∧
      it.score = some y ∧ y ≤ 1 / 10) :
    trig.written = true ∧
      ∀ k, 1 ≤ k → k ≤ m → ∃ it, (process capture st).log[i + k]? = some it ∧
        (it.written = true ↔ k ≤ 9) := by
  refine ⟨(trigger_entry capture _ i trig x h hs hx).1, ?_⟩
  intro k _ hk
  obtain ⟨it, hit, _, hw⟩ := countdown_quiet capture _ i m trig x h hs hx hq k hk
  exact ⟨it, hit, hw⟩

theorem trigger_then_exactly_nine_witness :
    (process quietAfterMotion ⟨10, 2⟩).log[1]? = some ⟨⟨10, 2⟩, [100], some 255, true, 9⟩ ∧
      ∃ it, (process quietAfterMotion ⟨10, 2⟩).log[1 + 10]? = some it ∧
        (it.written = true ↔ 10 ≤ 9) :=
  ⟨by decide!,
    (trigger_then_exactly_nine quietAfterMotion ⟨10, 2⟩ 1 11
      ⟨⟨10, 2⟩, [100], some 255, true, 9⟩ 255 (by decide!) rfl (by norm_num)
      (by
        intro k h1 h2
        interval_cases k <;>
          first
          | exact ⟨⟨⟨10, 2⟩, [100], some 0, true, 8⟩, 0, by decide!, rfl, by norm_num⟩
          | exact ⟨⟨⟨10, 2⟩, [100], some 0, true, 7⟩, 0, by decide!, rfl, by norm_num⟩
          | exact ⟨⟨⟨10, 2⟩, [100], some 0, true, 6⟩, 0, by decide!, rfl, by norm_num⟩
          | exact ⟨⟨⟨10, 2⟩, [100], some 0, true, 5⟩, 0, by decide!, rfl, by norm_num⟩
          | exact ⟨⟨⟨10, 2⟩, [100], some 0, true, 4⟩, 0, by decide!, rfl, by norm_num⟩
          | exact ⟨⟨⟨10, 2⟩, [100], some 0, true, 3⟩, 0, by decide!, rfl, by norm_num⟩
          | exact ⟨⟨⟨10, 2⟩, [100], some 0, true, 2⟩, 0, by decide!, rfl, by norm_num⟩
          | exact ⟨⟨⟨10, 2⟩, [100], some 0, true, 1⟩, 0, by decide!, rfl, by norm_num⟩
          | exact ⟨⟨⟨10, 2⟩, [100], some 0, true, 0⟩, 0, by decide!, rfl, by norm_num⟩
          | exact ⟨⟨⟨10, 2⟩, [100], some 0, false, 0⟩, 0, by decide!, rfl, by norm_num⟩)).2
      10 (by decide) (by decide)⟩

/-- C4: when the frame of log entry `i` scores above `0.1`, it is written and
leaves the Save Countdown at `9`; each of the next 9 frames that is read is
written, whatever it scores; and when these 9 frames all score at most `0.1`,
each of them lowers the countdown by one, so that it is `9 - k` after the
`k`-th and `0` after the 9th. -/
theorem trigger_and_next_nine (capture : List Read) (st : RetryState) (i : Nat)
    (trig : Iter) (x : ℚ)
    (h : (process capture st).log[i]? = some trig) (hs : trig.score = some x)
    (hx : x > 1 / 10) :
    trig.written = true ∧ trig.countDown = 9 ∧
      (∀ (k : Nat) (it : Iter), 1 ≤ k → k ≤ 9 → (process capture st).log[i + k]? = some it →
        it.written = true) ∧
      ((∀ k, 1 ≤ k → k ≤ 9 → ∃ it y, (process capture st).log[i + k]? = some it ∧
          it.score = some y ∧ y ≤ 1 / 10) →
        (∀ k, 1 ≤ k → k ≤ 9 → ∃ prev it, (process capture st).log[i + k - 1]? = some prev ∧
          (process capture st).log[i + k]? = some it ∧ it.written = true ∧
          it.countDown = prev.countDown - 1 ∧ it.countDown = 9 - (k : Int)) ∧
        ∃ ninth, (process capture st).log[i + 9]? = some ninth ∧ ninth.countDown = 0) := by
  obtain ⟨hw, hc⟩ := trigger_entry capture _ i trig x h hs hx
  refine ⟨hw, hc, ?_, ?_⟩
  · intro k it _ hk hit
    exact (countdown_lower capture _ i trig x h hs hx k it hit).2 hk
  · intro hq
    have hall := countdown_quiet capture _ i 9 trig x h hs hx hq
    constructor
    · intro k h1 hk
      obtain ⟨it, hit, hcd, hwr⟩ := hall k hk
      obtain ⟨prev, hprev, hpcd, _⟩ := hall (k - 1) (by omega)
      have e : i + (k - 1) = i + k - 1 := by omega
      rw [e] at hprev
      refine ⟨prev, it, hprev, hit, hwr.mpr hk, ?_, ?_⟩
      · rw [hcd, hpcd]
        have : ((k - 1 : Nat) : Int) = (k : Int) - 1 := by omega
        rw [this]; omega
      · rw [hcd]; omega
    · obtain ⟨it, hit, hcd, _⟩ := hall 9 (le_refl 9)
      exact ⟨it, hit, by rw [hcd]; rfl⟩

theorem trigger_and_next_nine_witness :
    (process fiveThenQuiet ⟨10, 2⟩).log[1]? = some ⟨⟨10, 2⟩, spot 100, some 5, true, 9⟩ ∧
      (process fiveThenQuiet ⟨10, 2⟩).log[1 + 9]? = some ⟨⟨10, 2⟩, spot 100, some 0, true, 0⟩ ∧
      ((⟨⟨10, 2⟩, spot 100, some 5, true, 9⟩ : Iter).written = true ∧
        (⟨⟨10, 2⟩, spot 100, some 5, true, 9⟩ : Iter).countDown = 9) ∧
      (⟨⟨10, 2⟩, spot 100, some 0, true, 0⟩ : Iter).written = true :=
  ⟨by decide!, by decide!,
    ⟨(trigger_and_next_nine fiveThenQuiet ⟨10, 2⟩ 1 ⟨⟨10, 2⟩, spot 100, some 5, true, 9⟩ 5
        (by decide!) rfl (by norm_num)).1,
      (trigger_and_next_nine fiveThenQuiet ⟨10, 2⟩ 1 ⟨⟨10, 2⟩, spot 100, some 5, true, 9⟩ 5
        (by decide!) rfl (by norm_num)).2.1⟩,
    (trigger_and_next_nine fiveThenQuiet ⟨10, 2⟩ 1 ⟨⟨10, 2⟩, spot 100, some 5, true, 9⟩ 5
      (by decide!) rfl (by norm_num)).2.2.1 9 ⟨⟨10, 2⟩, spot 100, some 0, true, 0⟩
      (by decide) (by decide) (by decide!)⟩

/-- C7: in one call of `process`, the baseline after the first frame is that
frame's greyscale raster exactly; after each later frame that is processed it
has the size of the frame, and each of its pixels is within `1/2` of
`0.5 * baseline[i-1] + 0.5 * grey[i]` at that pixel and at most `255`.  Frames
of one size, with no key pressed, are all processed. -/
theorem baseline_is_running_average (capture : List Read) (st : RetryState) :
    (∀ it, (process capture st).log[0]? = some it →
        ∃ g key, capture[0]? = some (.frame g key) ∧ it.baseline = g) ∧
      (∀ (i : Nat) (prev it : Iter), (process capture st).log[i]? = some prev →
        (process capture st).log[i + 1]? = some it →
        ∃ g key, capture[i + 1]? = some (.frame g key) ∧
          prev.baseline.length = g.length ∧ it.baseline.length = g.length ∧
          ∀ (p : Nat) (b a c : Pixel), prev.baseline[p]? = some b → g[p]? = some a →
            it.baseline[p]? = some c →
            |(c.val : ℚ) - (1 / 2 * (b.val : ℚ) + 1 / 2 * (a.val : ℚ))| ≤ 1 / 2 ∧
              c.val ≤ 255) ∧
      (∀ n, 0 < n → (∀ r ∈ capture, ∃ g, r = .frame g false ∧ g.length = n) →
        (process capture st).log.length = capture.length) := by
  refine ⟨?_, ?_, ?_⟩
  · intro it h
    obtain ⟨sp, g, key, h1, h2, _, _, hA, _⟩ := log_entry capture ⟨st, [], 0⟩ 0 it h
    simp only [before, Option.some.injEq] at h1
    subst h1
    exact ⟨g, key, h2, (hA rfl).1⟩
  · intro i prev it hprev hit
    obtain ⟨g, key, hr, _, hl, hb, _, _⟩ := log_next capture ⟨st, [], 0⟩ i prev it hprev hit
    refine ⟨g, key, hr, hl, by rw [hb]; simp [hl], ?_⟩
    intro p b a c hpb hpa hpc
    rw [hb, List.getElem?_zipWith_eq_some] at hpc
    obtain ⟨x, y, hx, hy, hxy⟩ := hpc
    rw [hpb] at hx
    rw [hpa] at hy
    simp only [Option.some.injEq] at hx hy
    subst hx hy hxy
    exact ⟨addWeightedPx_near b a, by omega⟩
  · intro n hn hall
    exact (processLoop_progress n hn capture ⟨st, [], 0⟩ (Or.inl rfl) hall).2

theorem baseline_is_running_average_witness :
    (process tieFrames ⟨10, 2⟩).log[0]? = some ⟨⟨10, 2⟩, [10, 3], none, false, 0⟩ ∧
      (process tieFrames ⟨10, 2⟩).log[0 + 1]? = some ⟨⟨10, 2⟩, [12, 4], some 0, false, 0⟩ ∧
      ∃ g key, tieFrames[0 + 1]? = some (.frame g key) ∧
        ([10, 3] : Image).length = g.length ∧ ([12, 4] : Image).length = g.length ∧
        ∀ (p : Nat) (b a c : Pixel), ([10, 3] : Image)[p]? = some b → g[p]? = some a →
          ([12, 4] : Image)[p]? = some c →
          |(c.val : ℚ) - (1 / 2 * (b.val : ℚ) + 1 / 2 * (a.val : ℚ))| ≤ 1 / 2 ∧ c.val ≤ 255 :=
  ⟨by decide!, by decide!,
    (baseline_is_running_average tieFrames ⟨10, 2⟩).2.1 0
      ⟨⟨10, 2⟩, [10, 3], none, false, 0⟩ ⟨⟨10, 2⟩, [12, 4], some 0, false, 0⟩
      (by decide!) (by decide!)⟩

end Camcap
